import Mathlib

/-!
Verification development for the salsify sender core of the alfalfa
repository.  The definitions below are shallow embeddings of
`src/frontend/salsify-sender.cc` and `dx3/2d.hh`: machine integers are
modelled as `Nat` with explicit `% 2^w` where overflow or conversion
matters, fallible operations return `Option` or an explicit result
datatype, and each event handler of the sender's poller loop becomes a
pure state-transition function.
-/

namespace Alfalfa

/-- 2^32, the modulus of `uint32_t` / `unsigned int`. -/
def U32 : Nat := 4294967296

/-- 2^64, the modulus of `uint64_t` / `size_t` / `unsigned long`. -/
def U64 : Nat := 18446744073709551616

/-- 2^63, the first value outside the nonnegative range of `int64_t`. -/
def I63 : Nat := 9223372036854775808

/-- The sentinel `numeric_limits<uint32_t>::max()` stored in `avg_delay`
before any ack has been received (salsify-sender.cc line 137). -/
def UINT32_MAX : Nat := 4294967295

/-- The sentinel `numeric_limits<uint64_t>::max()` stored in `last_acked`
before any ack has been received (salsify-sender.cc line 141). -/
def UINT64_MAX : Nat := 18446744073709551615

/-- `MAX_SKIPPED` (salsify-sender.cc line 144). -/
def MAX_SKIPPED : Nat := 5

/-! ## The feedback-driven target-size rule

`target_size` (salsify-sender.cc lines 82-93).  In the C++ source
`avg_delay` is `uint32_t`, `last_acked` and `last_sent` are `uint64_t`.
`max_delay / avg_delay` is `uint32_t` division; `last_sent - last_acked`
and the outer subtraction are performed in `uint64_t` (wrapping), the
result is cast to `int64_t` (value-preserving below 2^63, otherwise
reduced by 2^64 as on all mainstream targets), clamped with
`max(0l, ...)`, multiplied by 1400 and returned as `size_t`.  The final
`% U64` models the conversion of the product to `size_t`; for the bounds
arising in the theorems below the product never overflows `int64_t`. -/
def target_size (avg_delay last_acked last_sent : Nat) : Nat :=
  let max_delay : Nat := 100 * 1000
  let avg : Nat := if avg_delay = 0 then 1 else avg_delay
  let inflight : Nat := (last_sent % U64 + U64 - last_acked % U64) % U64
  let diff : Nat := (max_delay / avg + U64 - inflight) % U64
  let v : Int := if diff < I63 then (diff : Int) else (diff : Int) - (U64 : Int)
  let m : Int := max 0 v
  (1400 * m).toNat % U64

/-! ## The 2-D container of `dx3/2d.hh` -/

/-- Result of a call to `TwoD::at` / `TwoDSubRange::at`: a value, the
`out_of_range` exception thrown by the explicit bounds guard
("attempted to read outside of TwoD structure", 2d.hh lines 77-79 and
136-138), or the `out_of_range` exception thrown by `vector::at`
(2d.hh line 80). -/
inductive AtResult (T : Type) where
  | ok : T → AtResult T
  | guardReject : AtResult T
  | storageReject : AtResult T
deriving DecidableEq

/-- `TwoD<T>` (2d.hh lines 41-96): a `width_ × height_` container whose
constructor fills `storage_` row-major, row by row (2d.hh lines 65-72),
so the element at (column, row) lives at index `row * width_ + column`. -/
structure TwoD (T : Type) where
  width_ : Nat
  height_ : Nat
  storage_ : List T

/-- `TwoD::at` (2d.hh lines 75-81): the guard rejects only when
`column > width_ or row > height_` (note: `>`, not `>=`), then defers to
`storage_.at( row * width_ + column )`. -/
def TwoD.at {T : Type} (g : TwoD T) (column row : Nat) : AtResult T :=
  if column > g.width_ ∨ row > g.height_ then .guardReject
  else
    match g.storage_[row * g.width_ + column]? with
    | some x => .ok x
    | none => .storageReject

/-- `TwoDSubRange<T>` (2d.hh lines 98-144): a view of `master_` starting
at (column_, row_) with extent `width_ × height_`; the constructors
assert `column_ + width_ ≤ master_.width()` and
`row_ + height_ ≤ master_.height()`. -/
structure TwoDSubRange (T : Type) where
  master_ : TwoD T
  column_ : Nat
  row_ : Nat
  width_ : Nat
  height_ : Nat

/-- `TwoDSubRange::at` (2d.hh lines 134-140): the same `>` guard, then
delegation to `master_.at( column_ + column, row_ + row )`. -/
def TwoDSubRange.at {T : Type} (sr : TwoDSubRange T) (column row : Nat) : AtResult T :=
  if column > sr.width_ ∨ row > sr.height_ then .guardReject
  else sr.master_.at (sr.column_ + column) (sr.row_ + row)

/-! ## The sender's event-driven scheduler

The body of `main` (salsify-sender.cc lines 110-342) is an event loop
over four poller actions.  Each action's lambda mutates the captured
local state; we embed that state as `SenderState` and each lambda as a
pure function on it.  `Encoder` values and `RasterHandle`s are opaque to
the scheduler (the codec is an external collaborator), so they are
modelled as abstract tokens of type `Nat`; the scheduler only ever
snapshots, stores and moves them. -/

/-- `EncoderMode` (used at salsify-sender.cc lines 61-74, 220, 233, 238). -/
inductive EncoderMode where
  | CONSTANT_QUANTIZER : EncoderMode
  | TARGET_FRAME_SIZE : EncoderMode
deriving DecidableEq

/-- `EncodeJob` (salsify-sender.cc lines 25-41).  The constructor sets
`mode = CONSTANT_QUANTIZER`, `y_ac_qi = 0` and `target_size = 0`. -/
structure EncodeJob where
  frame_no : Nat
  raster : Nat
  encoder : Nat
  mode : EncoderMode
  y_ac_qi : Nat
  target_size : Nat
deriving DecidableEq

/-- `EncodeOutput` (salsify-sender.cc lines 43-53), as observed by the
generation-ended handler: the advanced encoder state and the encoded
frame bytes.  The wall-clock `encode_time` is only printed and is
omitted. -/
structure EncodeOutput where
  encoder : Nat
  frame : List Nat
deriving DecidableEq

/-- Modelled from the spec: `FragmentedFrame::fragments_in_this_frame()`.
The `FragmentedFrame` class is not under `src/`; spec section 4.5 has the
fragmenter split the payload into consecutive fragments of up to 1400
bytes each, and scenario S6 gives a 4100-byte frame exactly 3 fragments
(1400+1400+1300), i.e. the count is the payload length divided by 1400,
rounded up. -/
def fragments_in_this_frame (frame : List Nat) : Nat :=
  (frame.length + 1399) / 1400

/-- The mutable locals of `main` that the four poller handlers share
(salsify-sender.cc lines 136-164). -/
structure SenderState where
  avg_delay : Nat
  cumulative_fpf : List Nat
  last_acked : Nat
  skipped_count : Nat
  frame_no : Nat
  last_raster : Option Nat
  encoder : Nat
  encode_jobs : List EncodeJob
deriving DecidableEq

/-- The command-line parameters the handlers read (salsify-sender.cc
lines 126-129). -/
structure Params where
  y_ac_qi : Nat
  connection_id : Nat
deriving DecidableEq

/-- The initial values of the shared locals (salsify-sender.cc lines
136-164); `e0` is the abstract token for the freshly constructed
`Encoder`. -/
def initState (e0 : Nat) : SenderState :=
  { avg_delay := UINT32_MAX
    cumulative_fpf := []
    last_acked := UINT64_MAX
    skipped_count := 0
    frame_no := 0
    last_raster := none
    encoder := e0
    encode_jobs := [] }

/-- The tick handler (salsify-sender.cc lines 197-269), fired every
`1/fps` seconds.  It returns early when a generation is in flight
(`encode_jobs.size() > 0`) or when no raster has been received; otherwise
it builds one `EncodeJob` from the committed encoder snapshot.  Line 219
reads `if ( true or avg_delay == numeric_limits<uint32_t>::max() )`, so
the constant-quantizer branch is always taken and the feedback branch of
lines 223-241 is dead code; both branches are embedded as written.
`cumulative_fpf.back()` on the (dead) feedback path is modelled with
`getLastD 0`. -/
def tick (p : Params) (s : SenderState) : SenderState :=
  if s.encode_jobs.length > 0 then s
  else
    match s.last_raster with
    | none => s
    | some raster =>
      let base : EncodeJob :=
        { frame_no := s.frame_no, raster := raster, encoder := s.encoder
          mode := .CONSTANT_QUANTIZER, y_ac_qi := 0, target_size := 0 }
      if true || (s.avg_delay == UINT32_MAX) then
        { s with encode_jobs :=
            s.encode_jobs ++ [{ base with mode := .CONSTANT_QUANTIZER, y_ac_qi := p.y_ac_qi }] }
      else
        let frame_size := target_size s.avg_delay s.last_acked (s.cumulative_fpf.getLastD 0)
        if frame_size ≤ 0 ∧ s.skipped_count < MAX_SKIPPED then
          { s with skipped_count := s.skipped_count + 1 }
        else if frame_size = 0 then
          { s with encode_jobs :=
              s.encode_jobs ++ [{ base with mode := .TARGET_FRAME_SIZE, target_size := 1400 }] }
        else
          { s with encode_jobs :=
              s.encode_jobs ++ [{ base with mode := .TARGET_FRAME_SIZE, target_size := frame_size }] }

/-- What the generation-ended handler emits on the socket, as far as the
claims observe it: which frame number was sent and how many fragments it
produced (`FragmentedFrame::send`, salsify-sender.cc lines 290-298). -/
structure EmittedFrame where
  frame_no : Nat
  fragment_count : Nat
deriving DecidableEq

/-- The generation-ended handler (salsify-sender.cc lines 271-309).  The
argument `outs` is the vector `encode_outputs` at the moment the handler
runs: one entry per spawned job, in submission order, `some o` when that
job's future is `valid()` and delivers output `o` (after blocking in
`get()` if the job has not finished), `none` for an invalid future.
Note that `std::future::valid()` is *not* a readiness test: it stays
true for every future obtained from `std::async` until `get()` consumes
it, whether or not the job met its deadline.  So in the program every
entry is `some`, the `any_of` test of line 278 cannot fail for a spawned
generation, and the discard branch of lines 279-282 is unreachable (see
`encode_ended_live` below for the handler restricted to what the program
can pass); the `Option` entries mirror the handler's own test at line
276 and make this a superset of the program's reachable configurations.
When some entry is valid, `find_if` picks the first valid entry (line
284) — the first *submitted* job's future, not the first *ready* one —
the frame is fragmented and sent, `cumulative_fpf` is extended (lines
297-298; the `operator[]` access at index `frame_no - 1` is in range in
every reachable state, see the length invariant below), and the commit
of lines 300-304 runs. -/
def encode_ended (s : SenderState) (outs : List (Option EncodeOutput)) :
    SenderState × Option EmittedFrame :=
  if ¬ outs.any Option.isSome then
    ({ s with encode_jobs := [] }, none)
  else
    match (outs.find? Option.isSome).join with
    | none => ({ s with encode_jobs := [] }, none)
    | some output =>
      let fc := fragments_in_this_frame output.frame
      ({ s with
          cumulative_fpf := s.cumulative_fpf ++
            [if s.frame_no > 0 then (s.cumulative_fpf[s.frame_no - 1]?).getD 0 + fc else fc]
          encoder := output.encoder
          skipped_count := 0
          frame_no := s.frame_no + 1
          encode_jobs := [] },
       some { frame_no := s.frame_no, fragment_count := fc })

/-- The generation-ended handler as the program can actually invoke it:
`encode_outputs` holds one future per spawned job, freshly obtained from
`std::async` by the coordinator thread (lines 249-254) and not yet
consumed by `get()`, and such a future is `valid()` whether or not its
job finished by the deadline — so every entry the handler sees is
present.  `outs` lists, in submission order, the output each job's
future delivers (for a job still running at handler time, the output
`get()` blocks to completion for). -/
def encode_ended_live (s : SenderState) (outs : List EncodeOutput) :
    SenderState × Option EmittedFrame :=
  encode_ended s (outs.map some)

/-- The wire fields of an inbound `AckPacket` (salsify-sender.cc lines
314-326; spec section 6). -/
structure AckPacket where
  connection_id : Nat
  frame_no : Nat
  fragment_no : Nat
  avg_delay : Nat
deriving DecidableEq

/-- The ack handler (salsify-sender.cc lines 311-331).  A mismatched
`connection_id` is dropped silently; otherwise `avg_delay` is overwritten
unconditionally (line 322) and `last_acked` is recomputed from
`cumulative_fpf[ ack.frame_no() - 1 ]` (lines 324-326).  That
`operator[]` access carries no bounds check: when `ack.frame_no()`
exceeds the number of frames sent the read is out of bounds — undefined
behavior, modelled as `none`. -/
def ack_handler (connection_id : Nat) (s : SenderState) (a : AckPacket) :
    Option SenderState :=
  if a.connection_id ≠ connection_id then some s
  else
    let s1 := { s with avg_delay := a.avg_delay }
    if a.frame_no > 0 then
      match s.cumulative_fpf[a.frame_no - 1]? with
      | none => none
      | some v => some { s1 with last_acked := (v + a.fragment_no) % U64 }
    else some { s1 with last_acked := a.fragment_no }

/-- The events served by the poller loop, one constructor per poller
action (salsify-sender.cc lines 182-331).  A `raster` event carries the
token of the raster read from the input; an `ended` event carries the
`encode_outputs` vector the coordinator thread left behind (in the
program every entry is present, since spawned futures stay valid, so
these traces are a superset of the program's; invariants proved over all
traces hold a fortiori of the program's). -/
inductive Event where
  | raster : Nat → Event
  | tick : Event
  | ended : List (Option EncodeOutput) → Event
  | ack : AckPacket → Event

/-- One serviced event.  The raster handler (salsify-sender.cc lines
182-193) overwrites `last_raster`; the other three handlers are embedded
above.  The result is `none` exactly when the ack handler performs its
out-of-bounds read. -/
def step (p : Params) (s : SenderState) : Event → Option SenderState
  | .raster r => some { s with last_raster := some r }
  | .tick => some (tick p s)
  | .ended outs => some (encode_ended s outs).1
  | .ack a => ack_handler p.connection_id s a

/-- Service a list of events in order, stopping at undefined behavior. -/
def runFrom (p : Params) (s : SenderState) : List Event → Option SenderState
  | [] => some s
  | e :: evs =>
    match step p s e with
    | none => none
    | some s2 => runFrom p s2 evs

/-- A full execution of the sender from its initial state. -/
def run (p : Params) (e0 : Nat) (evs : List Event) : Option SenderState :=
  runFrom p (initState e0) evs

/-! ## The CLI integer argument check

`paranoid_atoi` (salsify-sender.cc lines 100-108) calls `std::stoul`,
narrows the result to `unsigned int`, converts it back with
`std::to_string` and throws unless the round-trip reproduces the input.
`std::stoul` and `std::to_string` are standard-library collaborators;
they are embedded below following their specified behavior (C++
`strtoul` with base 10): skip leading whitespace, accept one optional
sign, consume the maximal run of decimal digits, fail with
`invalid_argument` when that run is empty and with `out_of_range` when
the value exceeds `ULONG_MAX`, and negate modulo 2^64 after a minus
sign.  `std::to_string` prints the canonical decimal representation. -/

/-- Decimal digit test, `'0' ≤ c ≤ '9'`. -/
def isDigitChar (c : Char) : Bool :=
  decide (48 ≤ c.toNat ∧ c.toNat ≤ 57)

/-- Whitespace as classified by `isspace` in the default locale. -/
def isSpaceChar (c : Char) : Bool :=
  c == ' ' || c == '\t' || c == '\n' || c == '\x0b' || c == '\x0c' || c == '\r'

/-- Split off the maximal leading run of decimal digits. -/
def takeDigits : List Char → List Char × List Char
  | [] => ([], [])
  | c :: cs =>
    if isDigitChar c then
      let r := takeDigits cs
      (c :: r.1, r.2)
    else ([], c :: cs)

/-- The numeric value of a run of decimal digits. -/
def digitsToNat (ds : List Char) : Nat :=
  ds.foldl (fun a c => a * 10 + (c.toNat - 48)) 0

/-- Strip one optional leading sign, remembering whether it was minus. -/
def stripSign : List Char → Bool × List Char
  | [] => (false, [])
  | c :: r =>
    if c = '-' then (true, r)
    else if c = '+' then (false, r)
    else (false, c :: r)

/-- Modelled from the spec of the standard library: `std::stoul` on a
64-bit platform (`ULONG_MAX = 2^64 - 1`), base 10.  `none` means an
exception (`invalid_argument` or `out_of_range`) escapes. -/
def stoul (s : String) : Option Nat :=
  let cs := s.data.dropWhile isSpaceChar
  let sr := stripSign cs
  let pr := takeDigits sr.2
  if pr.1 = [] then none
  else
    let v := digitsToNat pr.1
    if v ≥ U64 then none
    else some (if sr.1 then (U64 - v % U64) % U64 else v)

/-- The decimal digit characters. -/
def digitChar (d : Nat) : Char :=
  if d = 0 then '0' else if d = 1 then '1' else if d = 2 then '2'
  else if d = 3 then '3' else if d = 4 then '4' else if d = 5 then '5'
  else if d = 6 then '6' else if d = 7 then '7' else if d = 8 then '8'
  else '9'

/-- Little-endian digit list of `n`; the fuel argument (always at least
`n + 1` at the call site below) only makes the recursion structural. -/
def natDigitsRevAux : Nat → Nat → List Char
  | 0, _ => []
  | fuel + 1, n =>
    if n < 10 then [digitChar n]
    else digitChar (n % 10) :: natDigitsRevAux fuel (n / 10)

/-- Little-endian digit list of `n`. -/
def natDigitsRev (n : Nat) : List Char :=
  natDigitsRevAux (n + 1) n

/-- Modelled from the spec of the standard library: `std::to_string` on
an unsigned value, the canonical decimal representation with no sign, no
leading zeros and no other characters. -/
def to_string (n : Nat) : String :=
  String.mk (natDigitsRev n).reverse

/-- `paranoid_atoi` (salsify-sender.cc lines 100-108).  `none` means the
call throws (either out of `stoul` or the function's own
`runtime_error`); `some ret` is the accepted value.  The initialization
`const unsigned int ret = stoul( in )` narrows modulo 2^32. -/
def paranoid_atoi (s : String) : Option Nat :=
  match stoul s with
  | none => none
  | some u =>
    let ret := u % U32
    if to_string ret = s then some ret else none

/-! ## Claims about the target-size rule -/

/-- Modelled from the spec's words (section 8 invariant 5), for
comparison with `target_size`: `1400 × max(0, 100000/max(avg_delay,1) −
(cumulative_fpf_back − last_acked))` over unbounded integers with exact
integer division. -/
def target_size_spec (avg_delay last_acked last_sent : Nat) : Int :=
  1400 * max 0 (((100000 / max avg_delay 1 : Nat) : Int) -
    ((last_sent : Int) - (last_acked : Int)))

/-- C4 counterexample: with `avg_delay = 200000`, `last_acked = 0` and
`cumulative_fpf_back = 2^64 - 1000` (all within the machine types and
with `last_acked ≤ cumulative_fpf_back`), the claimed formula yields 0
but `target_size` returns 1400000: the `uint64_t` subtraction wraps and
the wrapped value re-enters the nonnegative range of `int64_t`. -/
theorem C4_target_size_counterexample :
    target_size 200000 0 18446744073709550616 = 1400000 ∧
    target_size_spec 200000 0 18446744073709550616 = 0 := by
  exact ⟨rfl, by decide⟩

/-- C4 (amended): for every `avg_delay < 2^32` and every pair
`last_acked ≤ last_sent` of `uint64_t` values whose difference is at most
`100000 / max(avg_delay, 1) + 2^63`, `target_size` returns exactly
`1400 × max(0, 100000 / max(avg_delay, 1) − (last_sent − last_acked))`
with exact integer division. -/
theorem C4_target_size_amended (avg la ls : Nat)
    (_ha : avg < U32) (hla : la < U64) (hls : ls < U64) (hle : la ≤ ls)
    (hbound : ls - la ≤ 100000 / max avg 1 + I63) :
    (target_size avg la ls : Int) = target_size_spec avg la ls := by
  have havg : (if avg = 0 then 1 else avg) = max avg 1 := by
    rcases Nat.eq_zero_or_pos avg with h | h
    · simp [h]
    · rw [if_neg (by omega), Nat.max_eq_left h]
  simp only [target_size, target_size_spec, U64, U32, I63] at *
  rw [havg]
  set q := 100000 / max avg 1 with hqdef
  have hq : q ≤ 100000 := Nat.div_le_self _ _
  have hinf : (ls % 18446744073709551616 + 18446744073709551616 -
      la % 18446744073709551616) % 18446744073709551616 = ls - la := by omega
  rw [hinf]
  by_cases h1 : ls - la ≤ q
  · have hdiff : (q + 18446744073709551616 - (ls - la)) % 18446744073709551616 =
        q - (ls - la) := by omega
    rw [hdiff, if_pos (by omega : q - (ls - la) < 9223372036854775808)]
    omega
  · have hdiff : (q + 18446744073709551616 - (ls - la)) % 18446744073709551616 =
        q + 18446744073709551616 - (ls - la) := by omega
    rw [hdiff, if_neg (by omega : ¬ q + 18446744073709551616 - (ls - la) < 9223372036854775808)]
    omega

/-- C4 witness: the amended statement evaluated at `avg_delay = 1`,
`last_acked = 0`, `cumulative_fpf_back = 5`. -/
theorem C4_target_size_amended_witness :
    (target_size 1 0 5 : Int) = target_size_spec 1 0 5 := by
  exact C4_target_size_amended 1 0 5 (by decide) (by decide) (by decide)
    (by decide) (by decide)

/-! ## Claims about the tick handler's mode decision -/

/-- C1: the claim fails on the code.  In a state where an ack has been
received (`avg_delay = 100`, not the sentinel) and the computed target
size is positive (`target_size 100 10 10 = 1400000`), a valid tick still
spawns a `CONSTANT_QUANTIZER` job with the configured quantizer instead
of a `TARGET_FRAME_SIZE` job: the `true or ...` on line 219 of
salsify-sender.cc short-circuits the feedback branch. -/
theorem C1_feedback_rule_dead :
    target_size 100 10 10 = 1400000 ∧
    (tick { y_ac_qi := 32, connection_id := 5 }
        { avg_delay := 100, cumulative_fpf := [10], last_acked := 10,
          skipped_count := 0, frame_no := 1, last_raster := some 7,
          encoder := 3, encode_jobs := [] }).encode_jobs =
      [{ frame_no := 1, raster := 7, encoder := 3,
         mode := .CONSTANT_QUANTIZER, y_ac_qi := 32, target_size := 0 }] := by
  exact ⟨rfl, rfl⟩

/-- C5: the claim fails on the code.  In a state where the skip quota is
exhausted (`skipped_count = MAX_SKIPPED = 5`) and the computed target
size is 0 (`target_size 100000 0 2 = 0`), a valid tick spawns a
`CONSTANT_QUANTIZER` job with `target_size = 0`, not the claimed
`TARGET_FRAME_SIZE` job of 1400 bytes: the `true or ...` on line 219 of
salsify-sender.cc makes the skip-quota branch of lines 231-235
unreachable. -/
theorem C5_skip_quota_branch_dead :
    target_size 100000 0 2 = 0 ∧
    MAX_SKIPPED = 5 ∧
    (tick { y_ac_qi := 32, connection_id := 5 }
        { avg_delay := 100000, cumulative_fpf := [2], last_acked := 0,
          skipped_count := 5, frame_no := 1, last_raster := some 7,
          encoder := 3, encode_jobs := [] }).encode_jobs =
      [{ frame_no := 1, raster := 7, encoder := 3,
         mode := .CONSTANT_QUANTIZER, y_ac_qi := 32, target_size := 0 }] := by
  exact ⟨rfl, rfl, rfl⟩

/-! ## Claim about acks for unsent frames -/

/-- C3: the claim fails on the code.  With one frame sent
(`cumulative_fpf = [3]`), an ack whose `connection_id` matches but whose
`frame_no = 2` refers to a frame never emitted is not silently ignored:
the handler overwrites `avg_delay` first (line 322 of salsify-sender.cc)
and then reads `cumulative_fpf[1]` out of bounds (lines 324-325) —
undefined behavior, modelled as `none`, instead of the claimed unchanged
state `some s`. -/
theorem C3_unsent_frame_ack_oob :
    ack_handler 7
      { avg_delay := 999, cumulative_fpf := [3], last_acked := 2,
        skipped_count := 0, frame_no := 1, last_raster := some 7,
        encoder := 3, encode_jobs := [] }
      { connection_id := 7, frame_no := 2, fragment_no := 0, avg_delay := 50 } =
      none := by
  exact rfl

/-! ## Behavior of the generation-ended handler -/

/-- When no future is valid the handler only clears the in-flight jobs
and emits nothing (salsify-sender.cc lines 278-282). -/
theorem encode_ended_none_ready (s : SenderState) (outs : List (Option EncodeOutput))
    (h : ∀ o ∈ outs, o = none) :
    encode_ended s outs = ({ s with encode_jobs := [] }, none) := by
  unfold encode_ended
  rw [if_pos]
  simp only [List.any_eq_true, not_exists, not_and]
  intro o ho
  rw [h o ho]
  simp

/-- When some future is valid the handler commits the first valid output
in submission order (salsify-sender.cc lines 284-306). -/
theorem encode_ended_first_ready (s : SenderState) (outs : List (Option EncodeOutput))
    (o : EncodeOutput) (h : (outs.find? Option.isSome).join = some o) :
    encode_ended s outs =
      ({ s with
          cumulative_fpf := s.cumulative_fpf ++
            [if s.frame_no > 0 then
               (s.cumulative_fpf[s.frame_no - 1]?).getD 0 + fragments_in_this_frame o.frame
             else fragments_in_this_frame o.frame]
          encoder := o.encoder
          skipped_count := 0
          frame_no := s.frame_no + 1
          encode_jobs := [] },
       some { frame_no := s.frame_no,
              fragment_count := fragments_in_this_frame o.frame }) := by
  have hfind : outs.find? Option.isSome = some (some o) := by
    rcases hj : outs.find? Option.isSome with _ | x
    · rw [hj] at h; simp [Option.join] at h
    · rw [hj] at h
      cases x with
      | none => simp [Option.join] at h
      | some y => simp [Option.join] at h; rw [h]
  have hmem : (some o) ∈ outs := List.mem_of_find?_eq_some hfind
  have hany : outs.any Option.isSome = true := by
    rw [List.any_eq_true]
    exact ⟨some o, hmem, rfl⟩
  unfold encode_ended
  rw [if_neg (by simp [hany]), h]

/-- On a nonempty generation the handler commits the head of the
submission order: every entry of `(o :: rest).map some` is present, so
`find_if` returns the head. -/
theorem encode_ended_live_head (s : SenderState) (o : EncodeOutput)
    (rest : List EncodeOutput) :
    encode_ended_live s (o :: rest) =
      ({ s with
          cumulative_fpf := s.cumulative_fpf ++
            [if s.frame_no > 0 then
               (s.cumulative_fpf[s.frame_no - 1]?).getD 0 + fragments_in_this_frame o.frame
             else fragments_in_this_frame o.frame]
          encoder := o.encoder
          skipped_count := 0
          frame_no := s.frame_no + 1
          encode_jobs := [] },
       some { frame_no := s.frame_no,
              fragment_count := fragments_in_this_frame o.frame }) := by
  unfold encode_ended_live
  rw [List.map_cons]
  exact encode_ended_first_ready s _ o (by rw [List.find?_cons_of_pos _ rfl]; rfl)

/-- C2: the claim fails on the code.  `std::future::valid()` is not a
readiness test: every spawned, unconsumed future stays valid after the
deadline passes, so the `any_of` test of line 278 cannot fail for a
spawned generation and the discard path of lines 279-282 is unreachable.
A generation whose jobs all missed the deadline is therefore not
discarded: the handler blocks in `get()` on the first future, then sends
the frame late and commits.  Formally: on every nonempty generation the
handler emits a frame and advances `frame_no`, and at the concrete
input — one late job with output encoder 9 and a one-fragment frame, in
a state with one frame already sent — it sends frame 1 and commits,
instead of the claimed discard with no frame sent, unchanged committed
state and unchanged `frame_no`. -/
theorem C2_missed_deadline_still_sends :
    (∀ (s : SenderState) (o : EncodeOutput) (rest : List EncodeOutput),
      ((encode_ended_live s (o :: rest)).2).isSome = true ∧
      (encode_ended_live s (o :: rest)).1.frame_no = s.frame_no + 1) ∧
    encode_ended_live
      { avg_delay := 999, cumulative_fpf := [3], last_acked := 2,
        skipped_count := 1, frame_no := 1, last_raster := some 7,
        encoder := 3,
        encode_jobs := [{ frame_no := 1, raster := 7, encoder := 3,
                          mode := .CONSTANT_QUANTIZER, y_ac_qi := 32,
                          target_size := 0 }] }
      [{ encoder := 9, frame := [1] }] =
      ({ avg_delay := 999, cumulative_fpf := [3, 4], last_acked := 2,
         skipped_count := 0, frame_no := 2, last_raster := some 7,
         encoder := 9, encode_jobs := [] },
       some { frame_no := 1, fragment_count := 1 }) := by
  constructor
  · intro s o rest
    rw [encode_ended_live_head]
    exact ⟨rfl, rfl⟩
  · rfl

/-- C6: the claim fails on the code.  Since `valid()` holds for every
spawned future, `find_if` at line 284 selects the first *submitted*
future — it never selects by readiness — and `get()` blocks on it even
when a later job's output is the one that is ready by the deadline.
Formally: on every nonempty generation the committed encoder state is
the head output's, regardless of which outputs are ready, and at the
concrete input — first-submitted job late with output encoder 8, second
job ready with output encoder 9 — the handler commits encoder 8, not
the ready output's encoder 9 that the claim selects.  (The commit shape
itself — skip counter reset, `frame_no` incremented, job set cleared —
does match the claim.) -/
theorem C6_commit_blocks_on_first_submitted :
    (∀ (s : SenderState) (o : EncodeOutput) (rest : List EncodeOutput),
      (encode_ended_live s (o :: rest)).1.encoder = o.encoder ∧
      (encode_ended_live s (o :: rest)).1.skipped_count = 0 ∧
      (encode_ended_live s (o :: rest)).1.frame_no = s.frame_no + 1 ∧
      (encode_ended_live s (o :: rest)).1.encode_jobs = []) ∧
    encode_ended_live
      { avg_delay := 999, cumulative_fpf := [3], last_acked := 2,
        skipped_count := 1, frame_no := 1, last_raster := some 7,
        encoder := 3,
        encode_jobs := [{ frame_no := 1, raster := 7, encoder := 3,
                          mode := .CONSTANT_QUANTIZER, y_ac_qi := 32,
                          target_size := 0 }] }
      [{ encoder := 8, frame := [1] }, { encoder := 9, frame := [2] }] =
      ({ avg_delay := 999, cumulative_fpf := [3, 4], last_acked := 2,
         skipped_count := 0, frame_no := 2, last_raster := some 7,
         encoder := 8, encode_jobs := [] },
       some { frame_no := 1, fragment_count := 1 }) := by
  constructor
  · intro s o rest
    rw [encode_ended_live_head]
    exact ⟨rfl, rfl, rfl, rfl⟩
  · rfl

/-! ## Behavior of the tick handler -/

/-- A tick that arrives while a generation is in flight is dropped with
no side effect (salsify-sender.cc lines 202-205). -/
theorem tick_in_flight (p : Params) (s : SenderState)
    (h : s.encode_jobs ≠ []) : tick p s = s := by
  unfold tick
  rw [if_pos (List.length_pos.mpr h)]

/-- A tick that arrives before any raster is dropped with no side effect
(salsify-sender.cc lines 207-210). -/
theorem tick_no_raster (p : Params) (s : SenderState)
    (h : s.last_raster = none) : tick p s = s := by
  unfold tick
  split
  · rfl
  · rw [h]

/-- A tick either changes nothing or — when no generation is in flight
and a raster is available — appends exactly one constant-quantizer job
built from the committed snapshot, leaving every other field of the
state untouched. -/
theorem tick_cases (p : Params) (s : SenderState) :
    tick p s = s ∨
    (s.encode_jobs = [] ∧
      tick p s = { s with encode_jobs :=
        [{ frame_no := s.frame_no, raster := s.last_raster.getD 0,
           encoder := s.encoder, mode := .CONSTANT_QUANTIZER,
           y_ac_qi := p.y_ac_qi, target_size := 0 }] }) := by
  unfold tick
  split
  · exact Or.inl rfl
  · next hlen =>
    have hnil : s.encode_jobs = [] := List.length_eq_zero.mp (by omega)
    rcases hr : s.last_raster with _ | r
    · exact Or.inl rfl
    · refine Or.inr ⟨hnil, ?_⟩
      simp [hnil]

/-- The generation-ended handler always leaves the in-flight job set
empty. -/
theorem encode_ended_jobs_nil (s : SenderState) (outs : List (Option EncodeOutput)) :
    (encode_ended s outs).1.encode_jobs = [] := by
  unfold encode_ended
  split
  · rfl
  · split <;> rfl

/-- The ack handler touches only `avg_delay` and `last_acked`. -/
theorem ack_handler_frame_fields (cid : Nat) (s s' : SenderState) (a : AckPacket)
    (h : ack_handler cid s a = some s') :
    s'.cumulative_fpf = s.cumulative_fpf ∧ s'.frame_no = s.frame_no ∧
    s'.encode_jobs = s.encode_jobs ∧ s'.skipped_count = s.skipped_count ∧
    s'.encoder = s.encoder ∧ s'.last_raster = s.last_raster := by
  unfold ack_handler at h
  split at h
  · rw [Option.some_inj] at h
    rw [← h]
    exact ⟨rfl, rfl, rfl, rfl, rfl, rfl⟩
  · split at h
    · split at h
      · exact absurd h (by simp)
      · rw [Option.some_inj] at h
        rw [← h]
        exact ⟨rfl, rfl, rfl, rfl, rfl, rfl⟩
    · rw [Option.some_inj] at h
      rw [← h]
      exact ⟨rfl, rfl, rfl, rfl, rfl, rfl⟩

/-- Preservation of an invariant along a serviced event list. -/
theorem runFrom_preserves (p : Params) (Inv : SenderState → Prop)
    (G : Event → Prop)
    (hstep : ∀ s s' e, G e → step p s e = some s' → Inv s → Inv s') :
    ∀ evs s s', (∀ e ∈ evs, G e) → runFrom p s evs = some s' → Inv s → Inv s' := by
  intro evs
  induction evs with
  | nil =>
    intro s s' _ h hs
    rw [runFrom, Option.some_inj] at h
    rwa [h] at hs
  | cons e evs ih =>
    intro s s' hG h hs
    rw [runFrom] at h
    rcases hst : step p s e with _ | s2
    · rw [hst] at h
      exact absurd h (by simp)
    · rw [hst] at h
      exact ih s2 s' (fun x hx => hG x (List.mem_cons_of_mem e hx)) h
        (hstep s s2 e (hG e (List.mem_cons_self e evs)) hst hs)

/-- Every serviced event preserves `encode_jobs.length ≤ 1`. -/
theorem step_jobs_le_one (p : Params) (s s' : SenderState) (e : Event)
    (h : step p s e = some s') (hs : s.encode_jobs.length ≤ 1) :
    s'.encode_jobs.length ≤ 1 := by
  cases e with
  | raster r =>
    rw [step, Option.some_inj] at h
    rw [← h]
    exact hs
  | tick =>
    rw [step, Option.some_inj] at h
    rw [← h]
    rcases tick_cases p s with h1 | ⟨h0, h1⟩ <;> rw [h1]
    · exact hs
    · simp
  | ended outs =>
    rw [step, Option.some_inj] at h
    rw [← h, encode_ended_jobs_nil]
    simp
  | ack a =>
    rw [step] at h
    rw [(ack_handler_frame_fields p.connection_id s s' a h).2.2.1]
    exact hs

/-- C7: at most one encode generation is ever in flight (every reachable
state has at most one in-flight job, and a tick only ever adds a job to
an empty in-flight set), and a tick arriving while a generation is in
flight, or before any raster has been received, leaves the scheduler
state completely unchanged. -/
theorem C7_single_generation :
    (∀ p s, s.encode_jobs ≠ [] → tick p s = s) ∧
    (∀ p s, s.last_raster = none → tick p s = s) ∧
    (∀ p e0 evs s, run p e0 evs = some s → s.encode_jobs.length ≤ 1) := by
  refine ⟨tick_in_flight, tick_no_raster, ?_⟩
  intro p e0 evs s h
  exact runFrom_preserves p (fun s => s.encode_jobs.length ≤ 1) (fun _ => True)
    (fun s s' e _ => step_jobs_le_one p s s' e) evs (initState e0) s
    (fun _ _ => trivial) h (by simp [initState])

/-- C7 witness: a tick in a state with one in-flight job is a no-op, a
tick in the initial (rasterless) state is a no-op, and the state reached
by servicing a raster and two consecutive ticks has one in-flight
job. -/
theorem C7_single_generation_witness :
    tick { y_ac_qi := 32, connection_id := 5 }
      { avg_delay := 999, cumulative_fpf := [3], last_acked := 2,
        skipped_count := 0, frame_no := 1, last_raster := some 7,
        encoder := 3,
        encode_jobs := [{ frame_no := 1, raster := 7, encoder := 3,
                          mode := .CONSTANT_QUANTIZER, y_ac_qi := 32,
                          target_size := 0 }] } =
      { avg_delay := 999, cumulative_fpf := [3], last_acked := 2,
        skipped_count := 0, frame_no := 1, last_raster := some 7,
        encoder := 3,
        encode_jobs := [{ frame_no := 1, raster := 7, encoder := 3,
                          mode := .CONSTANT_QUANTIZER, y_ac_qi := 32,
                          target_size := 0 }] } ∧
    tick { y_ac_qi := 32, connection_id := 5 } (initState 3) = initState 3 ∧
    ∀ s, run { y_ac_qi := 32, connection_id := 5 } 3
        [Event.raster 1, Event.tick, Event.tick] = some s →
      s.encode_jobs.length ≤ 1 := by
  refine ⟨C7_single_generation.1 _ _ (by decide), C7_single_generation.2.1 _ _ rfl, ?_⟩
  intro s h
  exact C7_single_generation.2.2 _ 3 [Event.raster 1, Event.tick, Event.tick] s h

/-! ## The cumulative fragment counter -/

/-- An event under which every delivered encode output fragments into at
least one packet (vacuously true for non-`ended` events). -/
def positiveFragments : Event → Prop
  | .ended outs => ∀ o ∈ outs, ∀ x ∈ o, 1 ≤ fragments_in_this_frame x.frame
  | _ => True

/-- The two possible outcomes of the generation-ended handler on the
scheduler state: discard, or commit of the first valid output. -/
theorem encode_ended_cases (s : SenderState) (outs : List (Option EncodeOutput)) :
    (encode_ended s outs).1 = { s with encode_jobs := [] } ∨
    ∃ o, (outs.find? Option.isSome).join = some o ∧ (some o) ∈ outs ∧
      (encode_ended s outs).1 = { s with
        cumulative_fpf := s.cumulative_fpf ++
          [if s.frame_no > 0 then
             (s.cumulative_fpf[s.frame_no - 1]?).getD 0 + fragments_in_this_frame o.frame
           else fragments_in_this_frame o.frame]
        encoder := o.encoder
        skipped_count := 0
        frame_no := s.frame_no + 1
        encode_jobs := [] } := by
  by_cases hany : outs.any Option.isSome = true
  · have hjs : (outs.find? Option.isSome).isSome := by
      rw [List.find?_isSome]
      simpa using hany
    rcases hfind : outs.find? Option.isSome with _ | x
    · rw [hfind] at hjs
      simp at hjs
    · have hx : x.isSome := List.find?_some hfind
      rcases x with _ | o
      · simp at hx
      · refine Or.inr ⟨o, rfl, List.mem_of_find?_eq_some hfind, ?_⟩
        rw [encode_ended_first_ready s outs o (by rw [hfind]; rfl)]
  · left
    rw [encode_ended_none_ready s outs]
    intro o ho
    rcases o with _ | y
    · rfl
    · exact absurd (List.any_eq_true.mpr ⟨some y, ho, rfl⟩) hany

/-- With the length invariant, the indexing at `frame_no - 1` in the
commit path reads the last entry of `cumulative_fpf`. -/
theorem cum_index_is_last (s : SenderState)
    (hlen : s.cumulative_fpf.length = s.frame_no) (_hfn : s.frame_no > 0) :
    (s.cumulative_fpf[s.frame_no - 1]?).getD 0 = s.cumulative_fpf.getLastD 0 := by
  rw [← hlen, List.getLastD_eq_getLast?, List.getLast?_eq_getElem?]

/-- Every serviced event preserves the length invariant
`cumulative_fpf.length = frame_no`. -/
theorem step_cum_len (p : Params) (s s' : SenderState) (e : Event)
    (h : step p s e = some s') (hs : s.cumulative_fpf.length = s.frame_no) :
    s'.cumulative_fpf.length = s'.frame_no := by
  cases e with
  | raster r =>
    rw [step, Option.some_inj] at h
    rw [← h]
    exact hs
  | tick =>
    rw [step, Option.some_inj] at h
    rw [← h]
    rcases tick_cases p s with h1 | ⟨_, h1⟩ <;> rw [h1] <;> exact hs
  | ended outs =>
    rw [step, Option.some_inj] at h
    rw [← h]
    rcases encode_ended_cases s outs with h1 | ⟨o, _, _, h1⟩ <;> rw [h1]
    · exact hs
    · simp [hs]
  | ack a =>
    rw [step] at h
    have hf := ack_handler_frame_fields p.connection_id s s' a h
    rw [hf.1, hf.2.1]
    exact hs

/-- Every serviced event with positive fragment counts preserves strict
monotonicity of `cumulative_fpf` together with the length invariant. -/
theorem step_cum_chain (p : Params) (s s' : SenderState) (e : Event)
    (hg : positiveFragments e) (h : step p s e = some s')
    (hs : s.cumulative_fpf.length = s.frame_no ∧
      List.Chain' (· < ·) s.cumulative_fpf) :
    s'.cumulative_fpf.length = s'.frame_no ∧
    List.Chain' (· < ·) s'.cumulative_fpf := by
  refine ⟨step_cum_len p s s' e h hs.1, ?_⟩
  cases e with
  | raster r =>
    rw [step, Option.some_inj] at h
    rw [← h]
    exact hs.2
  | tick =>
    rw [step, Option.some_inj] at h
    rw [← h]
    rcases tick_cases p s with h1 | ⟨_, h1⟩ <;> rw [h1] <;> exact hs.2
  | ended outs =>
    rw [step, Option.some_inj] at h
    rw [← h]
    rcases encode_ended_cases s outs with h1 | ⟨o, _, hmem, h1⟩ <;> rw [h1]
    · exact hs.2
    · have hfc : 1 ≤ fragments_in_this_frame o.frame := hg (some o) hmem o rfl
      rw [List.chain'_append]
      refine ⟨hs.2, List.chain'_singleton _, ?_⟩
      intro x hx y hy
      rcases Nat.eq_zero_or_pos s.frame_no with hfn | hfn
      · have : s.cumulative_fpf = [] := by
          rw [← List.length_eq_zero, hs.1, hfn]
        rw [this] at hx
        simp at hx
      · have hlast : s.cumulative_fpf.getLast? = some x := hx
        simp only [List.head?_cons, Option.mem_def, Option.some_inj] at hy
        rw [if_pos hfn, cum_index_is_last s hs.1 hfn] at hy
        rw [List.getLastD_eq_getLast?, hlast] at hy
        simp only [Option.getD_some] at hy
        omega
  | ack a =>
    rw [step] at h
    rw [(ack_handler_frame_fields p.connection_id s s' a h).1]
    exact hs.2

/-- C8: after every emitted frame the counter sequence `cumulative_fpf`
is extended by exactly one entry, equal to its previous last entry plus
the new frame's fragment count (equal to the fragment count alone for
the first frame); consequently, in every reachable state its length
equals the number of frames sent, and whenever every delivered frame
produces at least one fragment it is strictly monotone. -/
theorem C8_cumulative_fpf :
    (∀ (s : SenderState) (outs : List (Option EncodeOutput)) (o : EncodeOutput),
      (outs.find? Option.isSome).join = some o →
      s.cumulative_fpf.length = s.frame_no →
      (encode_ended s outs).1.cumulative_fpf =
        s.cumulative_fpf ++
          [(if s.frame_no = 0 then 0 else s.cumulative_fpf.getLastD 0) +
            fragments_in_this_frame o.frame]) ∧
    (∀ p e0 evs s, run p e0 evs = some s →
      s.cumulative_fpf.length = s.frame_no) ∧
    (∀ p e0 evs s, run p e0 evs = some s → (∀ e ∈ evs, positiveFragments e) →
      List.Chain' (· < ·) s.cumulative_fpf) := by
  refine ⟨?_, ?_, ?_⟩
  · intro s outs o hfind hlen
    rw [encode_ended_first_ready s outs o hfind]
    rcases Nat.eq_zero_or_pos s.frame_no with hfn | hfn
    · simp [hfn]
    · rw [if_pos hfn, if_neg (by omega), cum_index_is_last s hlen hfn]
  · intro p e0 evs s h
    exact runFrom_preserves p (fun s => s.cumulative_fpf.length = s.frame_no)
      (fun _ => True) (fun s s' e _ => step_cum_len p s s' e) evs (initState e0) s
      (fun _ _ => trivial) h (by simp [initState])
  · intro p e0 evs s h hG
    exact (runFrom_preserves p
      (fun s => s.cumulative_fpf.length = s.frame_no ∧
        List.Chain' (· < ·) s.cumulative_fpf)
      positiveFragments (step_cum_chain p) evs (initState e0) s hG h
      (by simp [initState])).2

/-- C8 witness: a commit from a one-frame state appends `3 + 1`, and the
state reached by sending two one-fragment frames has the monotone
counter sequence `[1, 2]` of length 2. -/
theorem C8_cumulative_fpf_witness :
    (encode_ended
      { avg_delay := 999, cumulative_fpf := [3], last_acked := 2,
        skipped_count := 0, frame_no := 1, last_raster := some 7,
        encoder := 3, encode_jobs := [] }
      [some { encoder := 9, frame := [1, 2, 3] }]).1.cumulative_fpf = [3, 4] ∧
    (∀ s, run { y_ac_qi := 32, connection_id := 5 } 3
        [Event.raster 1, Event.tick, Event.ended [some { encoder := 9, frame := [1] }],
         Event.tick, Event.ended [some { encoder := 11, frame := [2] }]] = some s →
      s.cumulative_fpf.length = s.frame_no ∧
      List.Chain' (· < ·) s.cumulative_fpf) := by
  constructor
  · rw [C8_cumulative_fpf.1
      { avg_delay := 999, cumulative_fpf := [3], last_acked := 2,
        skipped_count := 0, frame_no := 1, last_raster := some 7,
        encoder := 3, encode_jobs := [] }
      [some { encoder := 9, frame := [1, 2, 3] }]
      { encoder := 9, frame := [1, 2, 3] } (by decide) rfl]
    rfl
  · intro s h
    refine ⟨C8_cumulative_fpf.2.1 _ 3 _ s h, C8_cumulative_fpf.2.2 _ 3 _ s h ?_⟩
    intro e he
    simp only [List.mem_cons, List.not_mem_nil, or_false] at he
    rcases he with rfl | rfl | rfl | rfl | rfl <;> simp [positiveFragments] <;> decide

/-! ## The off-by-one bounds guard of the 2-D container -/

/-- C10: because the guard of `TwoD::at` compares with `>` instead of
`>=`, the call `at(width_, r)` is accepted: for every `TwoD` whose
storage was filled by the constructor (`storage_.length = width_ *
height_`, `width_ > 0`) and every row `r` with `r + 1 < height_`, it
throws nothing and returns the element stored at position `(0, r + 1)` —
the first element of the next row, `storage_[(r + 1) * width_]`, exactly
what `at(0, r + 1)` returns.  `TwoDSubRange::at` shows the same
one-past-the-end acceptance: under the constructor's asserted
invariants, the calls `at(width_, row)` with `row ≤ height_` and
`at(column, height_)` with `column ≤ width_` pass both bounds guards. -/
theorem C10_at_off_by_one :
    (∀ (T : Type) (g : TwoD T), g.storage_.length = g.width_ * g.height_ →
      0 < g.width_ → ∀ r, r + 1 < g.height_ →
      (∃ x, g.at g.width_ r = AtResult.ok x ∧
        g.storage_[(r + 1) * g.width_]? = some x) ∧
      g.at g.width_ r = g.at 0 (r + 1)) ∧
    (∀ (T : Type) (sr : TwoDSubRange T),
      sr.column_ + sr.width_ ≤ sr.master_.width_ →
      sr.row_ + sr.height_ ≤ sr.master_.height_ →
      (∀ row, row ≤ sr.height_ → sr.at sr.width_ row ≠ AtResult.guardReject) ∧
      (∀ column, column ≤ sr.width_ → sr.at column sr.height_ ≠ AtResult.guardReject)) := by
  constructor
  · intro T g hlen hw r hr
    have hidx : (r + 1) * g.width_ < g.storage_.length := by
      rw [hlen, Nat.mul_comm g.width_ g.height_]
      exact Nat.mul_lt_mul_of_pos_right hr hw
    have harith : r * g.width_ + g.width_ = (r + 1) * g.width_ := by ring
    have harith2 : (r + 1) * g.width_ + 0 = (r + 1) * g.width_ := by ring
    rcases hx : g.storage_[(r + 1) * g.width_]? with _ | x
    · exact absurd (List.getElem?_eq_none_iff.mp hx) (by omega)
    · constructor
      · refine ⟨x, ?_, rfl⟩
        unfold TwoD.at
        rw [if_neg (by omega), harith, hx]
      · unfold TwoD.at
        rw [if_neg (by omega), if_neg (by omega), harith, harith2]
  · intro T sr hcw hrh
    constructor
    · intro row hrow
      unfold TwoDSubRange.at TwoD.at
      rw [if_neg (by omega), if_neg (by omega)]
      rcases hm : sr.master_.storage_[(sr.row_ + row) * sr.master_.width_ + (sr.column_ + sr.width_)]? with _ | x <;> simp
    · intro column hcol
      unfold TwoDSubRange.at TwoD.at
      rw [if_neg (by omega), if_neg (by omega)]
      rcases hm : sr.master_.storage_[(sr.row_ + sr.height_) * sr.master_.width_ + (sr.column_ + column)]? with _ | x <;> simp

/-- C10 witness: the 2 × 3 container storing `[0, 1, 2, 3, 4, 5]`
row-major accepts `at(2, 0)` and returns element 2 — the first element of
row 1, `at(0, 1)` — and the sub-range at (1, 1) of extent 1 × 2 accepts
both `at(1, 0)` and `at(0, 2)`. -/
theorem C10_at_off_by_one_witness :
    (∃ x, (TwoD.mk 2 3 [0, 1, 2, 3, 4, 5]).at 2 0 = AtResult.ok x ∧
      [0, 1, 2, 3, 4, 5][(0 + 1) * 2]? = some x) ∧
    (TwoD.mk 2 3 [0, 1, 2, 3, 4, 5]).at 2 0 = (TwoD.mk 2 3 [0, 1, 2, 3, 4, 5]).at 0 (0 + 1) ∧
    (TwoDSubRange.mk (TwoD.mk 2 3 [0, 1, 2, 3, 4, 5]) 1 1 1 2).at 1 0 ≠ AtResult.guardReject ∧
    (TwoDSubRange.mk (TwoD.mk 2 3 [0, 1, 2, 3, 4, 5]) 1 1 1 2).at 0 2 ≠ AtResult.guardReject := by
  have h1 := C10_at_off_by_one.1 Nat (TwoD.mk 2 3 [0, 1, 2, 3, 4, 5]) (by decide) (by decide) 0 (by decide)
  have h2 := C10_at_off_by_one.2 Nat (TwoDSubRange.mk (TwoD.mk 2 3 [0, 1, 2, 3, 4, 5]) 1 1 1 2) (by decide) (by decide)
  exact ⟨h1.1, h1.2, h2.1 0 (by decide), h2.2 0 (by decide)⟩

/-! ## Correctness of the CLI integer argument check -/

/-- Decimal digit characters have the code points 48 through 57. -/
theorem digitChar_toNat (d : Nat) (h : d < 10) : (digitChar d).toNat = 48 + d := by
  interval_cases d <;> rfl

/-- The digit list of `n` is never empty. -/
theorem natDigitsRevAux_ne_nil (fuel n : Nat) (h : n < fuel) :
    natDigitsRevAux fuel n ≠ [] := by
  cases fuel with
  | zero => omega
  | succ f =>
    simp only [natDigitsRevAux]
    split <;> simp

/-- Every character of the digit list of `n` is a decimal digit. -/
theorem natDigitsRevAux_digits (fuel : Nat) : ∀ n, n < fuel →
    ∀ c ∈ natDigitsRevAux fuel n, 48 ≤ c.toNat ∧ c.toNat ≤ 57 := by
  induction fuel with
  | zero => intro n h; omega
  | succ f ih =>
    intro n h c hc
    simp only [natDigitsRevAux] at hc
    by_cases h10 : n < 10
    · rw [if_pos h10] at hc
      simp only [List.mem_singleton] at hc
      subst hc
      rw [digitChar_toNat n h10]
      omega
    · rw [if_neg h10] at hc
      rcases List.mem_cons.mp hc with rfl | hc2
      · rw [digitChar_toNat (n % 10) (by omega)]
        omega
      · exact ih (n / 10) (by omega) c hc2

/-- Appending one digit multiplies the parsed value by ten. -/
theorem digitsToNat_append (ds : List Char) (c : Char) :
    digitsToNat (ds ++ [c]) = 10 * digitsToNat ds + (c.toNat - 48) := by
  unfold digitsToNat
  rw [List.foldl_append]
  simp [Nat.mul_comm]

/-- Parsing the reversed digit list of `n` recovers `n`. -/
theorem natDigitsRevAux_val (fuel : Nat) : ∀ n, n < fuel →
    digitsToNat ((natDigitsRevAux fuel n).reverse) = n := by
  induction fuel with
  | zero => intro n h; omega
  | succ f ih =>
    intro n h
    simp only [natDigitsRevAux]
    by_cases h10 : n < 10
    · rw [if_pos h10]
      unfold digitsToNat
      simp only [List.reverse_singleton, List.foldl_cons, List.foldl_nil]
      rw [digitChar_toNat n h10]
      omega
    · rw [if_neg h10]
      rw [List.reverse_cons, digitsToNat_append, ih (n / 10) (by omega),
        digitChar_toNat (n % 10) (by omega)]
      omega

/-- The most significant digit of a positive number is not `'0'`. -/
theorem natDigitsRevAux_getLast (fuel : Nat) : ∀ n, n < fuel → 1 ≤ n →
    ∀ ch, (natDigitsRevAux fuel n).getLast? = some ch → ch.toNat ≠ 48 := by
  induction fuel with
  | zero => intro n h; omega
  | succ f ih =>
    intro n h h1 ch hch
    simp only [natDigitsRevAux] at hch
    by_cases h10 : n < 10
    · rw [if_pos h10] at hch
      simp only [List.getLast?_singleton, Option.some_inj] at hch
      rw [← hch, digitChar_toNat n h10]
      omega
    · rw [if_neg h10] at hch
      rcases hrest : natDigitsRevAux f (n / 10) with _ | ⟨b, l⟩
      · exact absurd hrest (natDigitsRevAux_ne_nil f (n / 10) (by omega))
      · rw [hrest, List.getLast?_cons_cons] at hch
        refine ih (n / 10) (by omega) (by omega) ch ?_
        rw [hrest]
        exact hch

/-- A maximal digit run is taken whole. -/
theorem takeDigits_all (l : List Char) (h : ∀ c ∈ l, isDigitChar c = true) :
    takeDigits l = (l, []) := by
  induction l with
  | nil => rfl
  | cons c cs ih =>
    simp only [takeDigits]
    rw [if_pos (h c (List.mem_cons_self c cs)),
      ih (fun x hx => h x (List.mem_cons_of_mem _ hx))]

/-- A digit is not whitespace. -/
theorem not_space_of_digit (c : Char) (h : 48 ≤ c.toNat) :
    isSpaceChar c = false := by
  rw [Bool.eq_false_iff]
  intro htrue
  simp only [isSpaceChar, Bool.or_eq_true, beq_iff_eq] at htrue
  rcases htrue with ((((hc | hc) | hc) | hc) | hc) | hc <;> subst hc <;> revert h <;> decide

/-- `std::stoul` undoes `std::to_string` on any `unsigned long` value. -/
theorem stoul_to_string (v : Nat) (hv : v < U64) :
    stoul (to_string v) = some v := by
  have hne : natDigitsRevAux (v + 1) v ≠ [] := natDigitsRevAux_ne_nil _ _ (by omega)
  have hdig : ∀ c ∈ (natDigitsRevAux (v + 1) v).reverse, 48 ≤ c.toNat ∧ c.toNat ≤ 57 := by
    intro c hc
    exact natDigitsRevAux_digits _ v (by omega) c (List.mem_reverse.mp hc)
  have hdigb : ∀ c ∈ (natDigitsRevAux (v + 1) v).reverse, isDigitChar c = true := by
    intro c hc
    have hb := hdig c hc
    unfold isDigitChar
    exact decide_eq_true (by omega)
  have hval : digitsToNat ((natDigitsRevAux (v + 1) v).reverse) = v :=
    natDigitsRevAux_val (v + 1) v (by omega)
  rcases hl : (natDigitsRevAux (v + 1) v).reverse with _ | ⟨c, t⟩
  · exact absurd (List.reverse_eq_nil_iff.mp hl) hne
  · rw [hl] at hdig hdigb hval
    have hc48 : 48 ≤ c.toNat := (hdig c (List.mem_cons_self c t)).1
    have hspace : isSpaceChar c = false := not_space_of_digit c hc48
    have hm : ¬ (c = '-') := by intro hq; subst hq; revert hc48; decide
    have hp : ¬ (c = '+') := by intro hq; subst hq; revert hc48; decide
    have htd : takeDigits (c :: t) = (c :: t, []) := takeDigits_all (c :: t) hdigb
    have hbig : ¬ (digitsToNat (c :: t) ≥ U64) := by omega
    simp [stoul, to_string, natDigitsRev, hl, List.dropWhile_cons, hspace,
      stripSign, hm, hp, htd, hval, hbig]
    exact hv

/-- `paranoid_atoi` accepts the canonical decimal form of any value that
fits in `unsigned int` and returns that value. -/
theorem paranoid_atoi_to_string (v : Nat) (hv : v < U32) :
    paranoid_atoi (to_string v) = some v := by
  unfold paranoid_atoi
  rw [stoul_to_string v (Nat.lt_trans hv (by decide))]
  simp only [Nat.mod_eq_of_lt hv]
  simp

/-- Inversion: whatever `paranoid_atoi` accepts is the canonical decimal
form of a value below 2^32. -/
theorem paranoid_atoi_some (s : String) (v : Nat)
    (h : paranoid_atoi s = some v) : v < U32 ∧ s = to_string v := by
  unfold paranoid_atoi at h
  rcases hs : stoul s with _ | u
  · rw [hs] at h
    exact absurd h (by simp)
  · rw [hs] at h
    simp only [] at h
    by_cases hrt : to_string (u % U32) = s
    · rw [if_pos hrt, Option.some_inj] at h
      subst h
      exact ⟨Nat.mod_lt _ (by decide), hrt.symm⟩
    · rw [if_neg hrt] at h
      exact absurd h (by simp)

/-- C9: the CLI integer check accepts a string exactly when it is the
canonical decimal representation of a value below 2^32 — equivalently,
when converting it to `unsigned int` and back with `std::to_string`
reproduces the input — and then returns that decimal value; any string
containing a non-digit (in particular a sign character or trailing
garbage) and any string with a leading zero is rejected with an
exception. -/
theorem C9_paranoid_atoi :
    (∀ s : String, (paranoid_atoi s).isSome = true ↔
      ∃ v, v < U32 ∧ s = to_string v) ∧
    (∀ (s : String) (v : Nat), paranoid_atoi s = some v →
      v < U32 ∧ s = to_string v ∧ digitsToNat s.data = v) ∧
    (∀ (s : String) (c : Char), c ∈ s.data → isDigitChar c = false →
      paranoid_atoi s = none) ∧
    (∀ (s : String) (c : Char) (cs : List Char), s.data = '0' :: c :: cs →
      paranoid_atoi s = none) := by
  refine ⟨?_, ?_, ?_, ?_⟩
  · intro s
    constructor
    · intro h
      rcases Option.isSome_iff_exists.mp h with ⟨v, hv⟩
      obtain ⟨h1, h2⟩ := paranoid_atoi_some s v hv
      exact ⟨v, h1, h2⟩
    · rintro ⟨v, hv, rfl⟩
      rw [paranoid_atoi_to_string v hv]
      rfl
  · intro s v h
    obtain ⟨h1, h2⟩ := paranoid_atoi_some s v h
    refine ⟨h1, h2, ?_⟩
    rw [h2]
    simp only [to_string, natDigitsRev]
    exact natDigitsRevAux_val (v + 1) v (by omega)
  · intro s c hc hcd
    rcases hpa : paranoid_atoi s with _ | v
    · rfl
    · exfalso
      obtain ⟨hv, hs⟩ := paranoid_atoi_some s v hpa
      rw [hs] at hc
      simp only [to_string, natDigitsRev] at hc
      have hb := natDigitsRevAux_digits (v + 1) v (by omega) c (List.mem_reverse.mp hc)
      unfold isDigitChar at hcd
      simp only [decide_eq_false_iff_not] at hcd
      exact hcd (by omega)
  · intro s c cs hdata
    rcases hpa : paranoid_atoi s with _ | v
    · rfl
    · exfalso
      obtain ⟨hv, hs⟩ := paranoid_atoi_some s v hpa
      rw [hs] at hdata
      simp only [to_string, natDigitsRev] at hdata
      rcases Nat.eq_zero_or_pos v with rfl | hv1
      · simp [natDigitsRevAux, digitChar] at hdata
      · have hhead : ((natDigitsRevAux (v + 1) v).reverse).head? = some '0' := by
          rw [hdata]
          rfl
        rw [List.head?_reverse] at hhead
        exact natDigitsRevAux_getLast (v + 1) v (by omega) hv1 '0' hhead rfl

/-- C9 witness: `"42"` is accepted (being `to_string 42`), `"314"` is
accepted and canonical, while `"5x"` (trailing garbage), `"07"` (leading
zero), `"+5"` and `"-5"` (signs) are rejected. -/
theorem C9_paranoid_atoi_witness :
    (paranoid_atoi "42").isSome = true ∧
    (∃ v, v < U32 ∧ "314" = to_string v) ∧
    paranoid_atoi "5x" = none ∧
    paranoid_atoi "07" = none ∧
    paranoid_atoi "+5" = none ∧
    paranoid_atoi "-5" = none := by
  refine ⟨?_, ?_, ?_, ?_, ?_, ?_⟩
  · exact (C9_paranoid_atoi.1 "42").mpr ⟨42, by decide, by rfl⟩
  · exact (C9_paranoid_atoi.1 "314").mp (by rfl)
  · exact C9_paranoid_atoi.2.2.1 "5x" 'x' (by decide) (by decide)
  · exact C9_paranoid_atoi.2.2.2 "07" '7' [] (by rfl)
  · exact C9_paranoid_atoi.2.2.1 "+5" '+' (by decide) (by decide)
  · exact C9_paranoid_atoi.2.2.1 "-5" '-' (by decide) (by decide)

end Alfalfa
